import Mathlib

/-!
Verification development for the course / question generation pipeline in
`generate_question/generate_questions.py` (class `IntelligentQuestionGenerator`).

The Python program is a sequential ETL script: it prompts a generation client,
parses the JSON reply, and writes topic / question / choice / answer records
into a relational store.  The shallow embedding below models:

* the relational store as an explicit `StoreState` record threaded through
  every operation, with fresh identifiers drawn from per-table counters;
* raised Python exceptions as `Except` results (the error value carries the
  store state at the moment of the raise, since a raise never undoes writes);
* persistence failures (constraint violations, connectivity, ...) via a
  fail schedule `Nat → Bool` consulted on each write call, indexed by a
  running write-call counter;
* the generation client as a semantic channel: a reply either parses into
  the expected shape (`ok`), is text that `json.loads` rejects (`badJson`),
  or the client call itself raises (`svcError`).

Python dict accesses `d["k"]` on parsed JSON are modelled as mandatory
structure fields where no claim exercises their absence, and as `Option`
fields (raising on `none`) where the per-question payload may be malformed;
`d.get("k", default)` is modelled with `Option.getD`.
-/

/-- The `QuestionType` enumeration declared at the top of the module
(wider than what the generation path ever produces). -/
inductive QuestionType where
  | multiple_choice
  | single_choice
  | true_false
  | short_answer
  | fill_in_blank
  | essay
  | matching
  | ordering
deriving Repr, DecidableEq

/-- The `analysis` object of a structure reply (`analysis_data["analysis"]`):
subject area, complexity level, objectives, prerequisites, study hours. -/
structure AnalysisInfo where
  subject_area : String
  complexity_level : String
  learning_objectives : List String
  prerequisites : List String
  estimated_study_hours : String
deriving Repr, DecidableEq

/-- The `metadata` JSON blob stored on a topic row.  Only the keys the
program ever writes or reads are modelled; an absent key is `none`
(respectively `[]` once read back through `.get(k, [])`). -/
structure TopicMeta where
  analysis : Option AnalysisInfo := none
  course_type : Option String := none
  total_estimated_questions : Option Nat := none
  learning_outcomes : Option (List String) := none
  prerequisites : Option (List String) := none
  category_type : Option String := none
  key_concepts : Option (List String) := none
  question_strategy : Option (List (String × Nat)) := none
  difficulty_distribution : Option (List (String × Nat)) := none
deriving Repr, DecidableEq

/-- A row of the `topics` table: `id`, `name`, `description`, nullable
self-referential `parent_id`, the `slug` natural key, and `metadata`. -/
structure TopicRec where
  id : Nat
  name : String
  description : String
  parent_id : Option Nat
  slug : String
  metadata : TopicMeta
deriving Repr, DecidableEq

/-- The metadata blob written on every question row by
`insert_questions_with_metadata`. -/
structure QuestionMeta where
  cognitive_level : String
  key_concept : String
  auto_generated : Bool
  generation_timestamp : String
deriving Repr, DecidableEq

/-- A row of the `questions` table. -/
structure QuestionRec where
  id : Nat
  topic_id : Nat
  question_text : String
  question_type : String
  explanation : String
  points : Nat
  difficulty_level : Nat
  metadata : QuestionMeta
deriving Repr, DecidableEq

/-- A row of the `choices` table (its metadata blob holds only
`auto_generated`). -/
structure ChoiceRec where
  question_id : Nat
  choice_text : String
  is_correct : Bool
  sort_order : Nat
  metadata_auto_generated : Bool
deriving Repr, DecidableEq

/-- A row of the `correct_answers` table. -/
structure AnswerRec where
  question_id : Nat
  answer_text : String
  is_case_sensitive : Bool
  is_exact_match : Bool
  points : Nat
  sort_order : Nat
deriving Repr, DecidableEq

/-- The relational store: the four tables, fresh-id counters for the two
tables whose generated ids the program reads back, and a running counter
of write calls used by the fail schedule. -/
structure StoreState where
  topics : List TopicRec := []
  questions : List QuestionRec := []
  choices : List ChoiceRec := []
  correct_answers : List AnswerRec := []
  nextTopicId : Nat := 0
  nextQuestionId : Nat := 0
  callCount : Nat := 0
deriving Repr, DecidableEq

/-- The empty store. -/
def emptyStore : StoreState := {}

/-- A fail schedule that never injects a persistence failure. -/
def noFail : Nat → Bool := fun _ => false

/-- Modelled from the spec: the storage layer carries a `slug` column — a
natural key derived from the topic name (spec §3 and §4.2: "upsert root
topic using a natural key derived from its name (a slug)").  The
derivation itself lives in the database schema, which is outside this
repository; the code relies only on the slug being a deterministic
function of the name, so the model takes the derivation to be the
identity. -/
def slugOf (name : String) : String := name

/-- Storage `insert` into `topics`: assigns the next topic id, appends the
row, and returns the generated id (`result.data[0]["id"]`).  A scheduled
failure raises without writing. -/
def insertTopic (fail : Nat → Bool) (st : StoreState) (name description : String)
    (parent_id : Option Nat) (meta : TopicMeta) : Except StoreState (Nat × StoreState) :=
  if fail st.callCount then
    .error { st with callCount := st.callCount + 1 }
  else
    .ok (st.nextTopicId,
      { st with
        topics := st.topics ++ [{ id := st.nextTopicId, name := name,
                                  description := description, parent_id := parent_id,
                                  slug := slugOf name, metadata := meta }],
        nextTopicId := st.nextTopicId + 1,
        callCount := st.callCount + 1 })

/-- Replace the first row whose slug matches; leave everything else alone. -/
def updateFirstSlug (slug : String) (upd : TopicRec → TopicRec) :
    List TopicRec → List TopicRec
  | [] => []
  | t :: ts => if t.slug == slug then upd t :: ts else t :: updateFirstSlug slug upd ts

/-- Storage `upsert` into `topics` with `on_conflict='slug'`
(`self.supabase.table("topics").upsert(main_topic_data, on_conflict='slug')`):
if a row with the same slug exists, its fields are updated in place and its
existing id is returned; otherwise a fresh row is inserted. -/
def upsertTopic (fail : Nat → Bool) (st : StoreState) (name description : String)
    (parent_id : Option Nat) (meta : TopicMeta) : Except StoreState (Nat × StoreState) :=
  if fail st.callCount then
    .error { st with callCount := st.callCount + 1 }
  else
    match st.topics.find? (fun t => t.slug == slugOf name) with
    | some old =>
      .ok (old.id,
        { st with
          topics := updateFirstSlug (slugOf name)
            (fun _ => { id := old.id, name := name, description := description,
                        parent_id := parent_id, slug := slugOf name, metadata := meta })
            st.topics,
          callCount := st.callCount + 1 })
    | none =>
      .ok (st.nextTopicId,
        { st with
          topics := st.topics ++ [{ id := st.nextTopicId, name := name,
                                    description := description, parent_id := parent_id,
                                    slug := slugOf name, metadata := meta }],
          nextTopicId := st.nextTopicId + 1,
          callCount := st.callCount + 1 })

/-- Storage `update` on `topics` filtered by id
(`.update({"metadata": ...}).eq("id", main_topic_id)`): patches the
metadata of every row carrying that id. -/
def updateTopicMeta (fail : Nat → Bool) (st : StoreState) (id : Nat)
    (meta : TopicMeta) : Except StoreState StoreState :=
  if fail st.callCount then
    .error { st with callCount := st.callCount + 1 }
  else
    .ok { st with
      topics := st.topics.map (fun t => if t.id == id then { t with metadata := meta } else t),
      callCount := st.callCount + 1 }

/-- Storage `insert` into `questions`: assigns the next question id and
returns it.  The row builder receives the generated id. -/
def insertQuestion (fail : Nat → Bool) (st : StoreState)
    (mkRow : Nat → QuestionRec) : Except StoreState (Nat × StoreState) :=
  if fail st.callCount then
    .error { st with callCount := st.callCount + 1 }
  else
    .ok (st.nextQuestionId,
      { st with
        questions := st.questions ++ [mkRow st.nextQuestionId],
        nextQuestionId := st.nextQuestionId + 1,
        callCount := st.callCount + 1 })

/-- Storage batch `insert` into `choices` (one call for the whole batch). -/
def insertChoices (fail : Nat → Bool) (st : StoreState)
    (rows : List ChoiceRec) : Except StoreState StoreState :=
  if fail st.callCount then
    .error { st with callCount := st.callCount + 1 }
  else
    .ok { st with choices := st.choices ++ rows, callCount := st.callCount + 1 }

/-- Storage batch `insert` into `correct_answers` (one call for the batch). -/
def insertAnswers (fail : Nat → Bool) (st : StoreState)
    (rows : List AnswerRec) : Except StoreState StoreState :=
  if fail st.callCount then
    .error { st with callCount := st.callCount + 1 }
  else
    .ok { st with correct_answers := st.correct_answers ++ rows, callCount := st.callCount + 1 }

/-- One element of a parsed question payload list under the `choices` key:
`choice["text"]` and `choice["is_correct"]`. -/
structure ChoiceIn where
  text : String
  is_correct : Bool
deriving Repr, DecidableEq

/-- One element under the `correct_answers` key: `answer["text"]` is a
mandatory access, the remaining keys are read with `.get` and a default. -/
structure AnswerIn where
  text : String
  is_case_sensitive : Option Bool := none
  is_exact_match : Option Bool := none
  points : Option Nat := none
deriving Repr, DecidableEq

/-- One parsed question object (`q_data`).  The three keys the insert loop
subscripts directly (`question_text`, `question_type`, `explanation`) are
`Option` so a payload missing them can be represented: subscripting `none`
is the `KeyError` raise.  Keys read with `.get` carry their defaults at the
use sites. -/
structure QData where
  question_text : Option String := none
  question_type : Option String := none
  explanation : Option String := none
  points : Option Nat := none
  difficulty_level : Option Nat := none
  cognitive_level : Option String := none
  key_concept : Option String := none
  choices : Option (List ChoiceIn) := none
  correct_answers : Option (List AnswerIn) := none
deriving Repr, DecidableEq

/-- A parsed leaf-topic descriptor of a structure reply.  Keys read with
`.get(k, [])` or `.get(k, {})` are modelled directly as their
default-completed values. -/
structure LeafTopic where
  name : String
  description : String
  key_concepts : List String := []
  question_strategy : List (String × Nat) := []
  difficulty_distribution : List (String × Nat) := []
deriving Repr, DecidableEq

/-- A parsed subcategory descriptor. -/
structure Subcategory where
  name : String
  description : String
  prerequisites : List String := []
  leaf_topics : List LeafTopic
deriving Repr, DecidableEq

/-- A parsed main-category descriptor. -/
structure Category where
  name : String
  description : String
  learning_outcomes : List String := []
  subcategories : List Subcategory
deriving Repr, DecidableEq

/-- A parsed structure reply (`analysis_data`): the `analysis` object and
`analysis_data["structure"]["main_categories"]`, flattened one level. -/
structure AnalysisData where
  analysis : AnalysisInfo
  main_categories : List Category
deriving Repr, DecidableEq

/-- A request to the generation client: the keyword arguments of
`chat.completions.create`.  Temperature is recorded in tenths to stay in
exact arithmetic (0.3 becomes 3, 0.4 becomes 4). -/
structure Request where
  model : String
  prompt : String
  temperatureTenths : Nat
  max_tokens : Option Nat := none
deriving Repr, DecidableEq

/-- The semantic outcome of one client call: `ok` when the reply text
parses into the expected shape, `badJson` when `json.loads` raises
`JSONDecodeError` on it, `svcError` when the client call itself raises. -/
inductive ClientReply (α : Type) where
  | ok : α → ClientReply α
  | badJson : ClientReply α
  | svcError : ClientReply α
deriving Repr, DecidableEq

/-- The `analysis_prompt` f-string of `analyze_topic_and_generate_structure`.
Only `topic_input` is interpolated; everything around it is one fixed
literal (abridged here to its distinguishing lines, since no behaviour
depends on the remaining instructional wording). -/
def analysisPrompt (topic_input : String) : String :=
  "You are an expert educational content architect. Analyze this learning goal: \""
    ++ topic_input ++ "\"\n\n"
    ++ "TASK 1 - TOPIC ANALYSIS: (fixed instructional text)\n"
    ++ "TASK 2 - LEARNING STRUCTURE: (fixed instructional text)\n"
    ++ "TASK 3 - QUESTION STRATEGY: (fixed instructional text)\n"
    ++ "Return as JSON in this exact format: (fixed JSON template)"

/-- The request issued by `analyze_topic_and_generate_structure`:
`model="gpt-4"`, the analysis prompt, `temperature=0.3`, no max_tokens.
The `test_mode` parameter is in scope but (exactly as in the source) is
never consulted. -/
def analysisRequest (topic_input : String) (test_mode : Bool) : Request :=
  { model := "gpt-4", prompt := analysisPrompt topic_input,
    temperatureTenths := 3, max_tokens := none }

/-- `analyze_topic_and_generate_structure`: send one structure request and
`json.loads` the reply with no handler — a parse failure or client error
raises out of the method. -/
def analyze_topic_and_generate_structure (client : Request → ClientReply AnalysisData)
    (topic_input : String) (test_mode : Bool) : Except Unit AnalysisData :=
  match client (analysisRequest topic_input test_mode) with
  | .ok a => .ok a
  | .badJson => .error ()
  | .svcError => .error ()

/-- The topic payload handed to `generate_comprehensive_questions` (built
from a topic row and its metadata in the orchestrator loop). -/
structure TopicData where
  name : String
  description : String
  key_concepts : List String := []
  question_strategy : List (String × Nat) := []
  difficulty_distribution : List (String × Nat) := []
deriving Repr, DecidableEq

/-- Rendering of `json.dumps(question_distribution, indent=2)` (abridged
to a deterministic serialisation of the same data). -/
def renderStrategy (qs : List (String × Nat)) : String :=
  String.intercalate ", " (qs.map (fun p => p.1 ++ ": " ++ toString p.2))

/-- The `question_prompt` f-string of `generate_comprehensive_questions`,
including its dependence on `test_mode`: in test mode the strategy text and
distribution are fixed; in full mode they come from the topic strategy
(total `sum(question_strategy.values()) if question_strategy else 100`).
The long fixed requirement / format sections are abridged. -/
def questionPrompt (td : TopicData) (test_mode : Bool) : String :=
  let strategy_text :=
    if test_mode then
      "Generate 5 high-quality questions that cover the most essential concepts"
    else
      "Generate "
        ++ toString (if td.question_strategy.isEmpty then 100
                     else (td.question_strategy.map Prod.snd).sum)
        ++ " comprehensive questions following the specified distribution"
  let question_distribution :=
    if test_mode then
      [("multiple_choice", 2), ("true_false", 1), ("short_answer", 1), ("fill_in_blank", 1)]
    else td.question_strategy
  let concepts_text :=
    if td.key_concepts.isEmpty then "Focus on core topic elements"
    else String.intercalate "\n" (td.key_concepts.map (fun c => "- " ++ c))
  "You are an expert question designer creating assessment items for: \"" ++ td.name
    ++ "\"\n\nTOPIC CONTEXT:\nDescription: " ++ td.description
    ++ "\nKey Concepts to Test:\n" ++ concepts_text
    ++ "\n\nGENERATION STRATEGY:\n" ++ strategy_text
    ++ "\n\nQuestion Distribution:\n" ++ renderStrategy question_distribution
    ++ "\n\nQUALITY REQUIREMENTS: (fixed instructional text)"
    ++ "\nQUESTION TYPE GUIDELINES: (fixed instructional text)"
    ++ "\nReturn as JSON array with this exact structure: (fixed JSON template)"

/-- The request issued by `generate_comprehensive_questions`:
`model="gpt-4"`, the question prompt, `temperature=0.4`, `max_tokens=4000`. -/
def questionRequest (td : TopicData) (test_mode : Bool) : Request :=
  { model := "gpt-4", prompt := questionPrompt td test_mode,
    temperatureTenths := 4, max_tokens := some 4000 }

/-- `generate_comprehensive_questions`: one question request; a
`JSONDecodeError` from `json.loads` is caught, logged and turned into the
empty list; an exception raised by the client call itself propagates. -/
def generate_comprehensive_questions (client : Request → ClientReply (List QData))
    (topic_data : TopicData) (test_mode : Bool) : Except Unit (List QData) :=
  match client (questionRequest topic_data test_mode) with
  | .ok qs => .ok qs
  | .badJson => .ok []
  | .svcError => .error ()

/-- The enhanced metadata dict built for every question row. -/
def questionMetaOf (q : QData) : QuestionMeta :=
  { cognitive_level := q.cognitive_level.getD "understanding",
    key_concept := q.key_concept.getD "",
    auto_generated := true,
    generation_timestamp := "now()" }

/-- The `question_data` dict: mandatory `question_text` / `question_type` /
`explanation` (already extracted by the caller), `.get` defaults for
`points` (1) and `difficulty_level` (1), plus the metadata blob. -/
def buildQuestion (topic_id qid : Nat) (qtext qtype expl : String) (q : QData) : QuestionRec :=
  { id := qid, topic_id := topic_id, question_text := qtext, question_type := qtype,
    explanation := expl, points := q.points.getD 1,
    difficulty_level := q.difficulty_level.getD 1, metadata := questionMetaOf q }

/-- The enumerated choice rows of one question: `sort_order` is the
position `i` from `enumerate(q_data["choices"])`. -/
def buildChoices (qid : Nat) : Nat → List ChoiceIn → List ChoiceRec
  | _, [] => []
  | i, c :: cs =>
    { question_id := qid, choice_text := c.text, is_correct := c.is_correct,
      sort_order := i, metadata_auto_generated := true } :: buildChoices qid (i + 1) cs

/-- The enumerated correct-answer rows of one question: `.get` defaults
`is_case_sensitive`→false, `is_exact_match`→true, `points`→1, and
`sort_order` is the enumeration position. -/
def buildAnswers (qid : Nat) : Nat → List AnswerIn → List AnswerRec
  | _, [] => []
  | i, a :: rest =>
    { question_id := qid, answer_text := a.text,
      is_case_sensitive := a.is_case_sensitive.getD false,
      is_exact_match := a.is_exact_match.getD true,
      points := a.points.getD 1, sort_order := i } :: buildAnswers qid (i + 1) rest

/-- The `if q_data.get("choices"):` step: a present, non-empty choices list
triggers one batch insert; an absent or empty list is skipped (Python
truthiness). -/
def insChoicesStep (fail : Nat → Bool) (st : StoreState) (qid : Nat)
    (q : QData) : Except StoreState StoreState :=
  match q.choices with
  | some (c :: cs) => insertChoices fail st (buildChoices qid 0 (c :: cs))
  | _ => .ok st

/-- The `if q_data.get("correct_answers"):` step, symmetric to the choices
step. -/
def insAnswersStep (fail : Nat → Bool) (st : StoreState) (qid : Nat)
    (q : QData) : Except StoreState StoreState :=
  match q.correct_answers with
  | some (a :: rest) => insertAnswers fail st (buildAnswers qid 0 (a :: rest))
  | _ => .ok st

/-- `insert_questions_with_metadata`: for each question build the row
(subscripting the three mandatory keys — a missing one is a `KeyError`
raised before any write for that question), insert it, record the
generated id, then run the choices and answers steps.  Any raise aborts
the remaining questions (the method-level handler only logs and
re-raises). -/
def insert_questions_with_metadata (fail : Nat → Bool) (topic_id : Nat) :
    StoreState → List QData → Except StoreState (List Nat × StoreState)
  | st, [] => .ok ([], st)
  | st, q :: rest =>
    match q.question_text, q.question_type, q.explanation with
    | some qtext, some qtype, some expl =>
      match insertQuestion fail st (fun qid => buildQuestion topic_id qid qtext qtype expl q) with
      | .error e => .error e
      | .ok (qid, st1) =>
        match insChoicesStep fail st1 qid q with
        | .error e => .error e
        | .ok st2 =>
          match insAnswersStep fail st2 qid q with
          | .error e => .error e
          | .ok st3 =>
            match insert_questions_with_metadata fail topic_id st3 rest with
            | .error e => .error e
            | .ok (ids, st4) => .ok (qid :: ids, st4)
    | _, _, _ => .error st

/-- The root-topic metadata dict of `insert_topic_hierarchy`
(`total_estimated_questions` starts at 0 and is patched after the walk). -/
def rootMetaOf (analysis_data : AnalysisData) : TopicMeta :=
  { analysis := some analysis_data.analysis, course_type := some "auto_generated",
    total_estimated_questions := some 0 }

/-- The metadata dict written on a main-category row. -/
def catMetaOf (c : Category) : TopicMeta :=
  { learning_outcomes := some c.learning_outcomes,
    category_type := some "main_category" }

/-- The metadata dict written on a subcategory row. -/
def subcatMetaOf (sc : Subcategory) : TopicMeta :=
  { prerequisites := some sc.prerequisites,
    category_type := some "subcategory" }

/-- The metadata dict written on a leaf-topic row. -/
def leafMetaOf (l : LeafTopic) : TopicMeta :=
  { key_concepts := some l.key_concepts,
    question_strategy := some l.question_strategy,
    difficulty_distribution := some l.difficulty_distribution,
    category_type := some "leaf_topic" }

/-- `sum(strategy.values()) if strategy else 100` for one leaf topic. -/
def strategyCount (l : LeafTopic) : Nat :=
  if l.question_strategy.isEmpty then 100 else (l.question_strategy.map Prod.snd).sum

/-- The innermost loop of `insert_topic_hierarchy`: insert each leaf topic
under its subcategory in declared order, accumulating the estimated
question total. -/
def insertLeaves (fail : Nat → Bool) (subcategory_id : Nat) :
    StoreState → Nat → List LeafTopic → Except StoreState (Nat × StoreState)
  | st, acc, [] => .ok (acc, st)
  | st, acc, leaf :: rest =>
    match insertTopic fail st leaf.name leaf.description (some subcategory_id) (leafMetaOf leaf) with
    | .error e => .error e
    | .ok (_, st1) => insertLeaves fail subcategory_id st1 (acc + strategyCount leaf) rest

/-- The middle loop: insert each subcategory under its category, then its
leaf topics. -/
def insertSubcategories (fail : Nat → Bool) (category_id : Nat) :
    StoreState → Nat → List Subcategory → Except StoreState (Nat × StoreState)
  | st, acc, [] => .ok (acc, st)
  | st, acc, sc :: rest =>
    match insertTopic fail st sc.name sc.description (some category_id) (subcatMetaOf sc) with
    | .error e => .error e
    | .ok (scid, st1) =>
      match insertLeaves fail scid st1 acc sc.leaf_topics with
      | .error e => .error e
      | .ok (acc1, st2) => insertSubcategories fail category_id st2 acc1 rest

/-- The outer loop: insert each main category under the root, then its
subtree. -/
def insertCategories (fail : Nat → Bool) (root_id : Nat) :
    StoreState → Nat → List Category → Except StoreState (Nat × StoreState)
  | st, acc, [] => .ok (acc, st)
  | st, acc, c :: rest =>
    match insertTopic fail st c.name c.description (some root_id) (catMetaOf c) with
    | .error e => .error e
    | .ok (cid, st1) =>
      match insertSubcategories fail cid st1 acc c.subcategories with
      | .error e => .error e
      | .ok (acc1, st2) => insertCategories fail root_id st2 acc1 rest

/-- `insert_topic_hierarchy`: upsert the root on the slug conflict key,
walk the 3-level structure inserting every node under its parent, patch
the root metadata with the accumulated estimated-question total, and
return the root id.  The method-level handler logs and re-raises, so any
failure propagates and nothing is rolled back. -/
def insert_topic_hierarchy (fail : Nat → Bool) (st : StoreState)
    (analysis_data : AnalysisData) (main_topic_name : String) :
    Except StoreState (Nat × StoreState) :=
  match upsertTopic fail st main_topic_name ("Complete course: " ++ main_topic_name)
      none (rootMetaOf analysis_data) with
  | .error e => .error e
  | .ok (main_topic_id, st1) =>
    match insertCategories fail main_topic_id st1 0 analysis_data.main_categories with
    | .error e => .error e
    | .ok (total, st2) =>
      match updateTopicMeta fail st2 main_topic_id
          { rootMetaOf analysis_data with total_estimated_questions := some total } with
      | .error e => .error e
      | .ok st3 => .ok (main_topic_id, st3)

/-- The topic payload assembled from a fetched leaf-topic row inside the
orchestrator loop (`topic["name"]`, `topic["description"]`, and the
metadata fields read back with `.get(k, [])` / `.get(k, {})`). -/
def topicDataOf (t : TopicRec) : TopicData :=
  { name := t.name, description := t.description,
    key_concepts := t.metadata.key_concepts.getD [],
    question_strategy := t.metadata.question_strategy.getD [],
    difficulty_distribution := t.metadata.difficulty_distribution.getD [] }

/-- The per-leaf generation loop of `generate_intelligent_course` (step 4):
for each fetched leaf topic, request questions; an exception from the
request or from the insert, and equally an empty parsed list, appends the
topic name to `failed_topics` and moves on; a successful insert adds the
number of created ids to `total_questions`.  The loop itself can never
abort: its result type is a plain triple. -/
def genLoop (qClient : Request → ClientReply (List QData)) (fail : Nat → Bool)
    (test_mode : Bool) : StoreState → List TopicRec → Nat × List String × StoreState
  | st, [] => (0, [], st)
  | st, t :: rest =>
    match generate_comprehensive_questions qClient (topicDataOf t) test_mode with
    | .error _ =>
      let r := genLoop qClient fail test_mode st rest
      (r.1, t.name :: r.2.1, r.2.2)
    | .ok [] =>
      let r := genLoop qClient fail test_mode st rest
      (r.1, t.name :: r.2.1, r.2.2)
    | .ok (q :: qs) =>
      match insert_questions_with_metadata fail t.id st (q :: qs) with
      | .error stE =>
        let r := genLoop qClient fail test_mode stE rest
        (r.1, t.name :: r.2.1, r.2.2)
      | .ok (ids, st1) =>
        let r := genLoop qClient fail test_mode st1 rest
        (r.1 + ids.length, r.2.1, r.2.2)

/-- The summary dict returned by `generate_intelligent_course`. -/
structure Summary where
  main_topic_id : Nat
  total_topics : Nat
  total_questions : Nat
  failed_topics : List String
  analysis : AnalysisInfo
deriving Repr, DecidableEq

/-- `generate_intelligent_course`: analyse (fatal on failure), insert the
hierarchy (fatal on failure), fetch every topic row whose metadata tags it
`category_type == "leaf_topic"` (a plain filter over the whole `topics`
table, `.eq("metadata->>category_type", "leaf_topic")`), run the per-leaf
loop, and return the summary. -/
def generate_intelligent_course (aClient : Request → ClientReply AnalysisData)
    (qClient : Request → ClientReply (List QData)) (fail : Nat → Bool)
    (st : StoreState) (topic_input : String) (test_mode : Bool) :
    Except StoreState (Summary × StoreState) :=
  match analyze_topic_and_generate_structure aClient topic_input test_mode with
  | .error _ => .error st
  | .ok analysis_data =>
    match insert_topic_hierarchy fail st analysis_data topic_input with
    | .error e => .error e
    | .ok (main_topic_id, st1) =>
      let leaf_topics := st1.topics.filter
        (fun t => t.metadata.category_type == some "leaf_topic")
      let r := genLoop qClient fail test_mode st1 leaf_topics
      .ok ({ main_topic_id := main_topic_id, total_topics := leaf_topics.length,
             total_questions := r.1, failed_topics := r.2.1,
             analysis := analysis_data.analysis }, r.2.2)

/-! ### Specification-side record builders

The following definitions follow the words of the specification (§4.2 and
§8): the hierarchy walk produces, in declared order, one root record, then
for each category a record with `parent_id` the root id, for each
subcategory a record with `parent_id` its category id, and for each leaf
topic a record with `parent_id` its subcategory id, with ids handed out
consecutively by the store.  They are compared against the implementation
above. -/

/-- The expected record for one leaf topic under its subcategory. -/
def leafRecord (id subcategory_id : Nat) (l : LeafTopic) : TopicRec :=
  { id := id, name := l.name, description := l.description,
    parent_id := some subcategory_id, slug := slugOf l.name, metadata := leafMetaOf l }

/-- The expected records of a leaf-topic list, ids consecutive from
`idStart`. -/
def leafRecs (idStart subcategory_id : Nat) : List LeafTopic → List TopicRec
  | [] => []
  | l :: ls => leafRecord idStart subcategory_id l :: leafRecs (idStart + 1) subcategory_id ls

/-- The expected record for one subcategory under its category. -/
def subcatRecord (id category_id : Nat) (sc : Subcategory) : TopicRec :=
  { id := id, name := sc.name, description := sc.description,
    parent_id := some category_id, slug := slugOf sc.name, metadata := subcatMetaOf sc }

/-- Number of records contributed by a subcategory list (each subcategory
plus its leaf topics). -/
def subcatsSize : List Subcategory → Nat
  | [] => 0
  | sc :: rest => 1 + sc.leaf_topics.length + subcatsSize rest

/-- The expected records of a subcategory list in declared order: each
subcategory followed by its leaf topics, ids consecutive from `idStart`. -/
def subcatRecs (idStart category_id : Nat) : List Subcategory → List TopicRec
  | [] => []
  | sc :: rest =>
    subcatRecord idStart category_id sc ::
      (leafRecs (idStart + 1) idStart sc.leaf_topics ++
        subcatRecs (idStart + 1 + sc.leaf_topics.length) category_id rest)

/-- The expected record for one main category under the root. -/
def catRecord (id root_id : Nat) (c : Category) : TopicRec :=
  { id := id, name := c.name, description := c.description,
    parent_id := some root_id, slug := slugOf c.name, metadata := catMetaOf c }

/-- Number of records contributed by a category list (each category plus
its whole subtree). -/
def catsSize : List Category → Nat
  | [] => 0
  | c :: rest => 1 + subcatsSize c.subcategories + catsSize rest

/-- The expected records of a category list in declared order. -/
def catRecs (idStart root_id : Nat) : List Category → List TopicRec
  | [] => []
  | c :: rest =>
    catRecord idStart root_id c ::
      (subcatRecs (idStart + 1) idStart c.subcategories ++
        catRecs (idStart + 1 + subcatsSize c.subcategories) root_id rest)

/-- Estimated-question total over a leaf list. -/
def leavesCount : List LeafTopic → Nat
  | [] => 0
  | l :: ls => strategyCount l + leavesCount ls

/-- Estimated-question total over a subcategory list. -/
def subcatsCount : List Subcategory → Nat
  | [] => 0
  | sc :: rest => leavesCount sc.leaf_topics + subcatsCount rest

/-- Estimated-question total over a category list. -/
def catsCount : List Category → Nat
  | [] => 0
  | c :: rest => subcatsCount c.subcategories + catsCount rest

/-- Total number of subcategories over all categories. -/
def totalSubcats (cs : List Category) : Nat :=
  (cs.map (fun c => c.subcategories.length)).sum

/-- Total number of leaf topics over all categories. -/
def totalLeaves (cs : List Category) : Nat :=
  (cs.map (fun c => (c.subcategories.map (fun sc => sc.leaf_topics.length)).sum)).sum

/-- The root record as it stands after the final metadata patch. -/
def rootFinalRec (id : Nat) (d : AnalysisData) (name : String) : TopicRec :=
  { id := id, name := name, description := "Complete course: " ++ name,
    parent_id := none, slug := slugOf name,
    metadata := { rootMetaOf d with
      total_estimated_questions := some (catsCount d.main_categories) } }

/-! ### Characterisation of the hierarchy walk without injected failures -/

theorem insertLeaves_noFail (subcategory_id : Nat) (ls : List LeafTopic) :
    ∀ (st : StoreState) (acc : Nat),
    insertLeaves noFail subcategory_id st acc ls =
      .ok (acc + leavesCount ls,
        { st with topics := st.topics ++ leafRecs st.nextTopicId subcategory_id ls,
                  nextTopicId := st.nextTopicId + ls.length,
                  callCount := st.callCount + ls.length }) := by
  induction ls with
  | nil => intro st acc; simp [insertLeaves, leavesCount, leafRecs]
  | cons l ls ih =>
    intro st acc
    rw [insertLeaves, insertTopic]
    simp only [noFail, Bool.false_eq_true, if_false, ite_false]
    rw [ih]
    simp only [Except.ok.injEq, Prod.mk.injEq, StoreState.mk.injEq, leafRecs, leavesCount,
      leafRecord, List.length_cons, List.append_assoc, List.singleton_append, and_true,
      true_and, List.cons.injEq]
    omega

theorem insertSubcategories_noFail (category_id : Nat) (scs : List Subcategory) :
    ∀ (st : StoreState) (acc : Nat),
    insertSubcategories noFail category_id st acc scs =
      .ok (acc + subcatsCount scs,
        { st with topics := st.topics ++ subcatRecs st.nextTopicId category_id scs,
                  nextTopicId := st.nextTopicId + subcatsSize scs,
                  callCount := st.callCount + subcatsSize scs }) := by
  induction scs with
  | nil => intro st acc; simp [insertSubcategories, subcatsCount, subcatRecs, subcatsSize]
  | cons sc rest ih =>
    intro st acc
    rw [insertSubcategories, insertTopic]
    simp only [noFail, Bool.false_eq_true, if_false, ite_false]
    simp only [insertLeaves_noFail, ih]
    simp only [Except.ok.injEq, Prod.mk.injEq, StoreState.mk.injEq, subcatRecs, subcatsCount,
      subcatsSize, subcatRecord, List.append_assoc, List.singleton_append, and_true,
      true_and, List.cons.injEq]
    refine ⟨by omega, ?_, by omega, by omega⟩
    have : st.nextTopicId + 1 + sc.leaf_topics.length
        = st.nextTopicId + (1 + sc.leaf_topics.length) := by omega
    rw [this]
    simp [List.cons_append]

theorem insertCategories_noFail (root_id : Nat) (cs : List Category) :
    ∀ (st : StoreState) (acc : Nat),
    insertCategories noFail root_id st acc cs =
      .ok (acc + catsCount cs,
        { st with topics := st.topics ++ catRecs st.nextTopicId root_id cs,
                  nextTopicId := st.nextTopicId + catsSize cs,
                  callCount := st.callCount + catsSize cs }) := by
  induction cs with
  | nil => intro st acc; simp [insertCategories, catsCount, catRecs, catsSize]
  | cons c rest ih =>
    intro st acc
    rw [insertCategories, insertTopic]
    simp only [noFail, Bool.false_eq_true, if_false, ite_false]
    simp only [insertSubcategories_noFail, ih]
    simp only [Except.ok.injEq, Prod.mk.injEq, StoreState.mk.injEq, catRecs, catsCount,
      catsSize, catRecord, List.append_assoc, List.singleton_append, and_true,
      true_and, List.cons.injEq]
    refine ⟨by omega, ?_, by omega, by omega⟩
    have : st.nextTopicId + 1 + subcatsSize c.subcategories
        = st.nextTopicId + (1 + subcatsSize c.subcategories) := by omega
    rw [this]
    simp [List.cons_append]

theorem leafRecs_id_ge (subcategory_id : Nat) (ls : List LeafTopic) :
    ∀ (idStart : Nat), ∀ t ∈ leafRecs idStart subcategory_id ls, idStart ≤ t.id := by
  induction ls with
  | nil => intro idStart t ht; simp [leafRecs] at ht
  | cons l ls ih =>
    intro idStart t ht
    simp only [leafRecs, List.mem_cons] at ht
    rcases ht with h | h
    · subst h; simp [leafRecord]
    · have := ih (idStart + 1) t h; omega

theorem subcatRecs_id_ge (category_id : Nat) (scs : List Subcategory) :
    ∀ (idStart : Nat), ∀ t ∈ subcatRecs idStart category_id scs, idStart ≤ t.id := by
  induction scs with
  | nil => intro idStart t ht; simp [subcatRecs] at ht
  | cons sc rest ih =>
    intro idStart t ht
    simp only [subcatRecs, List.mem_cons, List.mem_append] at ht
    rcases ht with h | h | h
    · subst h; simp [subcatRecord]
    · have := leafRecs_id_ge idStart (sc.leaf_topics) (idStart + 1) t h; omega
    · have := ih (idStart + 1 + sc.leaf_topics.length) t h; omega

theorem catRecs_id_ge (root_id : Nat) (cs : List Category) :
    ∀ (idStart : Nat), ∀ t ∈ catRecs idStart root_id cs, idStart ≤ t.id := by
  induction cs with
  | nil => intro idStart t ht; simp [catRecs] at ht
  | cons c rest ih =>
    intro idStart t ht
    simp only [catRecs, List.mem_cons, List.mem_append] at ht
    rcases ht with h | h | h
    · subst h; simp [catRecord]
    · have := subcatRecs_id_ge idStart (c.subcategories) (idStart + 1) t h; omega
    · have := ih (idStart + 1 + subcatsSize c.subcategories) t h; omega

theorem leafRecs_parent_some (subcategory_id : Nat) (ls : List LeafTopic) :
    ∀ (idStart : Nat), ∀ t ∈ leafRecs idStart subcategory_id ls,
      t.parent_id = some subcategory_id := by
  induction ls with
  | nil => intro idStart t ht; simp [leafRecs] at ht
  | cons l ls ih =>
    intro idStart t ht
    simp only [leafRecs, List.mem_cons] at ht
    rcases ht with h | h
    · subst h; simp [leafRecord]
    · exact ih (idStart + 1) t h

theorem subcatRecs_parent_some (category_id : Nat) (scs : List Subcategory) :
    ∀ (idStart : Nat), ∀ t ∈ subcatRecs idStart category_id scs,
      ∃ p, t.parent_id = some p := by
  induction scs with
  | nil => intro idStart t ht; simp [subcatRecs] at ht
  | cons sc rest ih =>
    intro idStart t ht
    simp only [subcatRecs, List.mem_cons, List.mem_append] at ht
    rcases ht with h | h | h
    · subst h; exact ⟨category_id, rfl⟩
    · exact ⟨idStart, leafRecs_parent_some idStart sc.leaf_topics (idStart + 1) t h⟩
    · exact ih (idStart + 1 + sc.leaf_topics.length) t h

theorem catRecs_parent_some (root_id : Nat) (cs : List Category) :
    ∀ (idStart : Nat), ∀ t ∈ catRecs idStart root_id cs,
      ∃ p, t.parent_id = some p := by
  induction cs with
  | nil => intro idStart t ht; simp [catRecs] at ht
  | cons c rest ih =>
    intro idStart t ht
    simp only [catRecs, List.mem_cons, List.mem_append] at ht
    rcases ht with h | h | h
    · subst h; exact ⟨root_id, rfl⟩
    · exact subcatRecs_parent_some idStart c.subcategories (idStart + 1) t h
    · exact ih (idStart + 1 + subcatsSize c.subcategories) t h

/-- Full characterisation of `insert_topic_hierarchy` when no persistence
failure is injected and the store has no row carrying the root slug (so
the upsert takes its insert branch) and all existing ids are below the
fresh-id counter (so the final metadata patch touches only the new root). -/
theorem insert_topic_hierarchy_noFail (d : AnalysisData) (name : String) (st : StoreState)
    (hslug : ∀ t ∈ st.topics, t.slug ≠ slugOf name)
    (hids : ∀ t ∈ st.topics, t.id < st.nextTopicId) :
    insert_topic_hierarchy noFail st d name =
      .ok (st.nextTopicId,
        { st with
          topics := st.topics ++ rootFinalRec st.nextTopicId d name ::
            catRecs (st.nextTopicId + 1) st.nextTopicId d.main_categories,
          nextTopicId := st.nextTopicId + 1 + catsSize d.main_categories,
          callCount := st.callCount + 2 + catsSize d.main_categories }) := by
  have hfind : st.topics.find? (fun t => t.slug == slugOf name) = none := by
    refine List.find?_eq_none.mpr ?_
    intro t ht
    simpa using hslug t ht
  rw [insert_topic_hierarchy, upsertTopic]
  simp only [noFail, Bool.false_eq_true, if_false, ite_false, hfind]
  simp only [insertCategories_noFail, updateTopicMeta, noFail, Bool.false_eq_true,
    if_false, ite_false]
  simp only [Except.ok.injEq, Prod.mk.injEq, StoreState.mk.injEq, and_true, true_and]
  refine ⟨?_, by omega⟩
  have hpre : st.topics.map
      (fun t => if t.id == st.nextTopicId then
        { t with metadata := { rootMetaOf d with
            total_estimated_questions := some (0 + catsCount d.main_categories) } } else t)
      = st.topics := by
    refine Eq.trans (List.map_congr_left ?_) (List.map_id' st.topics)
    intro t ht
    have : t.id ≠ st.nextTopicId := Nat.ne_of_lt (hids t ht)
    simp [this]
  have hcat : (catRecs (st.nextTopicId + 1) st.nextTopicId d.main_categories).map
      (fun t => if t.id == st.nextTopicId then
        { t with metadata := { rootMetaOf d with
            total_estimated_questions := some (0 + catsCount d.main_categories) } } else t)
      = catRecs (st.nextTopicId + 1) st.nextTopicId d.main_categories := by
    refine Eq.trans (List.map_congr_left ?_) (List.map_id' _)
    intro t ht
    have hge := catRecs_id_ge st.nextTopicId d.main_categories (st.nextTopicId + 1) t ht
    have : t.id ≠ st.nextTopicId := by omega
    simp [this]
  rw [List.map_append, List.map_append, hpre, hcat]
  simp [rootFinalRec, rootMetaOf, List.append_assoc]

/-! ### Characterisation of the question inserter without injected failures -/

/-- Well-formedness of one parsed question object: the three keys the
inserter subscripts directly are present. -/
def wfQ (q : QData) : Prop :=
  q.question_text.isSome ∧ q.question_type.isSome ∧ q.explanation.isSome

/-- Consecutive identifiers from `start`, in order. -/
def idRange (start : Nat) : Nat → List Nat
  | 0 => []
  | n + 1 => start :: idRange (start + 1) n

/-- The expected question rows of a batch, ids consecutive from `qid`
(specification §4.3: one question record per input element). -/
def expectedQuestionRecs (topic_id qid : Nat) : List QData → List QuestionRec
  | [] => []
  | q :: rest =>
    buildQuestion topic_id qid (q.question_text.getD "") (q.question_type.getD "")
        (q.explanation.getD "") q ::
      expectedQuestionRecs topic_id (qid + 1) rest

/-- The choice rows one question contributes (all of its supplied choices,
enumerated from 0; an absent key contributes nothing). -/
def choicesOf (qid : Nat) (q : QData) : List ChoiceRec :=
  match q.choices with
  | some cs => buildChoices qid 0 cs
  | none => []

/-- The expected choice rows of a whole batch. -/
def expectedChoiceRecs (qid : Nat) : List QData → List ChoiceRec
  | [] => []
  | q :: rest => choicesOf qid q ++ expectedChoiceRecs (qid + 1) rest

/-- The answer rows one question contributes. -/
def answersOf (qid : Nat) (q : QData) : List AnswerRec :=
  match q.correct_answers with
  | some rs => buildAnswers qid 0 rs
  | none => []

/-- The expected correct-answer rows of a whole batch. -/
def expectedAnswerRecs (qid : Nat) : List QData → List AnswerRec
  | [] => []
  | q :: rest => answersOf qid q ++ expectedAnswerRecs (qid + 1) rest

/-- Number of write calls the choices step of one question makes (Python
truthiness: present and non-empty). -/
def choiceCall (q : QData) : Nat :=
  match q.choices with
  | some (_ :: _) => 1
  | _ => 0

/-- Number of write calls the answers step of one question makes. -/
def answerCall (q : QData) : Nat :=
  match q.correct_answers with
  | some (_ :: _) => 1
  | _ => 0

/-- Write calls per question: the question row plus its two optional
batch inserts. -/
def qCalls (q : QData) : Nat := 1 + choiceCall q + answerCall q

/-- Write calls of a whole batch. -/
def qsCalls : List QData → Nat
  | [] => 0
  | q :: rest => qCalls q + qsCalls rest

theorem insChoicesStep_noFail (st : StoreState) (qid : Nat) (q : QData) :
    insChoicesStep noFail st qid q =
      .ok { st with choices := st.choices ++ choicesOf qid q,
                    callCount := st.callCount + choiceCall q } := by
  rcases hc : q.choices with _ | l
  · simp [insChoicesStep, choicesOf, choiceCall, hc]
  · cases l with
    | nil => simp [insChoicesStep, choicesOf, choiceCall, hc, buildChoices]
    | cons c cs =>
      simp [insChoicesStep, insertChoices, choicesOf, choiceCall, hc, noFail]

theorem insAnswersStep_noFail (st : StoreState) (qid : Nat) (q : QData) :
    insAnswersStep noFail st qid q =
      .ok { st with correct_answers := st.correct_answers ++ answersOf qid q,
                    callCount := st.callCount + answerCall q } := by
  rcases hc : q.correct_answers with _ | l
  · simp [insAnswersStep, answersOf, answerCall, hc]
  · cases l with
    | nil => simp [insAnswersStep, answersOf, answerCall, hc, buildAnswers]
    | cons a rest =>
      simp [insAnswersStep, insertAnswers, answersOf, answerCall, hc, noFail]

theorem insert_questions_noFail (topic_id : Nat) (qs : List QData) :
    ∀ (st : StoreState), (∀ q ∈ qs, wfQ q) →
    insert_questions_with_metadata noFail topic_id st qs =
      .ok (idRange st.nextQuestionId qs.length,
        { st with
          questions := st.questions ++ expectedQuestionRecs topic_id st.nextQuestionId qs,
          choices := st.choices ++ expectedChoiceRecs st.nextQuestionId qs,
          correct_answers := st.correct_answers ++ expectedAnswerRecs st.nextQuestionId qs,
          nextQuestionId := st.nextQuestionId + qs.length,
          callCount := st.callCount + qsCalls qs }) := by
  induction qs with
  | nil =>
    intro st _
    simp [insert_questions_with_metadata, idRange, expectedQuestionRecs,
      expectedChoiceRecs, expectedAnswerRecs, qsCalls]
  | cons q rest ih =>
    intro st hwf
    obtain ⟨ht, hy, he⟩ := hwf q (by simp)
    obtain ⟨qtext, ht⟩ := Option.isSome_iff_exists.mp ht
    obtain ⟨qtype, hy⟩ := Option.isSome_iff_exists.mp hy
    obtain ⟨expl, he⟩ := Option.isSome_iff_exists.mp he
    have hrest : ∀ p ∈ rest, wfQ p := fun p hp => hwf p (by simp [hp])
    rw [insert_questions_with_metadata]
    simp only [ht, hy, he]
    simp only [insertQuestion, noFail, Bool.false_eq_true, if_false, ite_false]
    simp only [insChoicesStep_noFail, insAnswersStep_noFail, ih _ hrest]
    simp only [Except.ok.injEq, Prod.mk.injEq, StoreState.mk.injEq, and_true, true_and,
      idRange, expectedQuestionRecs, expectedChoiceRecs, expectedAnswerRecs, qsCalls,
      qCalls, List.length_cons, List.append_assoc, List.singleton_append,
      List.cons_append, List.cons.injEq, ht, hy, he, Option.getD_some]
    refine ⟨by simp, by omega, by omega⟩

theorem leafRecs_length (subcategory_id : Nat) (ls : List LeafTopic) :
    ∀ idStart, (leafRecs idStart subcategory_id ls).length = ls.length := by
  induction ls with
  | nil => intro idStart; simp [leafRecs]
  | cons l ls ih => intro idStart; simp [leafRecs, ih]

theorem subcatRecs_length (category_id : Nat) (scs : List Subcategory) :
    ∀ idStart, (subcatRecs idStart category_id scs).length = subcatsSize scs := by
  induction scs with
  | nil => intro idStart; simp [subcatRecs, subcatsSize]
  | cons sc rest ih =>
    intro idStart
    simp [subcatRecs, subcatsSize, leafRecs_length, ih]
    omega

theorem catRecs_length (root_id : Nat) (cs : List Category) :
    ∀ idStart, (catRecs idStart root_id cs).length = catsSize cs := by
  induction cs with
  | nil => intro idStart; simp [catRecs, catsSize]
  | cons c rest ih =>
    intro idStart
    simp [catRecs, catsSize, subcatRecs_length, ih]
    omega

theorem subcatsSize_eq (scs : List Subcategory) :
    subcatsSize scs = scs.length + (scs.map (fun sc => sc.leaf_topics.length)).sum := by
  induction scs with
  | nil => simp [subcatsSize]
  | cons sc rest ih => simp [subcatsSize, ih]; omega

theorem catsSize_eq (cs : List Category) :
    catsSize cs = cs.length + totalSubcats cs + totalLeaves cs := by
  induction cs with
  | nil => simp [catsSize, totalSubcats, totalLeaves]
  | cons c rest ih =>
    simp [catsSize, totalSubcats, totalLeaves, subcatsSize_eq] at *
    omega

theorem expectedQuestionRecs_length (topic_id : Nat) (qs : List QData) :
    ∀ qid, (expectedQuestionRecs topic_id qid qs).length = qs.length := by
  induction qs with
  | nil => intro qid; simp [expectedQuestionRecs]
  | cons q rest ih => intro qid; simp [expectedQuestionRecs, ih]

/-- Claim C2: for every well-formed parsed structure and root name (under
the preconditions that make the run fresh: no stored row already carries
the root slug, and stored ids sit below the fresh-id counter),
`insert_topic_hierarchy` produces exactly
`1 + |categories| + Σ|subcategories| + Σ|leaf_topics|` new topic records —
the root followed, in declared order, by each category record with
`parent_id` the root id, each of its subcategory records with `parent_id`
the category id, and each leaf record with `parent_id` the subcategory id
(this linkage and ordering is exactly the `rootFinalRec`/`catRecs`
specification builder the final store equals) — and returns the root
topic identifier. -/
theorem claim2_hierarchy_inserter (d : AnalysisData) (name : String) (st : StoreState)
    (hslug : ∀ t ∈ st.topics, t.slug ≠ slugOf name)
    (hids : ∀ t ∈ st.topics, t.id < st.nextTopicId) :
    ∃ final, insert_topic_hierarchy noFail st d name = .ok (st.nextTopicId, final) ∧
      final.topics = st.topics ++ rootFinalRec st.nextTopicId d name ::
        catRecs (st.nextTopicId + 1) st.nextTopicId d.main_categories ∧
      final.topics.length = st.topics.length +
        (1 + d.main_categories.length + totalSubcats d.main_categories
          + totalLeaves d.main_categories) ∧
      (rootFinalRec st.nextTopicId d name).id = st.nextTopicId ∧
      (rootFinalRec st.nextTopicId d name).parent_id = none := by
  refine ⟨_, insert_topic_hierarchy_noFail d name st hslug hids, rfl, ?_, rfl, rfl⟩
  simp [List.length_append, catRecs_length, catsSize_eq]
  omega

/-- Sample analysis object used by concrete witnesses. -/
def sampleAnalysis : AnalysisInfo :=
  { subject_area := "S", complexity_level := "L", learning_objectives := [],
    prerequisites := [], estimated_study_hours := "H" }

/-- Sample leaf topics, subcategory, category and structure (1 category,
1 subcategory, 2 leaf topics) used by concrete witnesses. -/
def sampleLeaf1 : LeafTopic := { name := "L1", description := "d1" }

/-- Second sample leaf topic. -/
def sampleLeaf2 : LeafTopic := { name := "L2", description := "d2" }

/-- Sample subcategory holding the two sample leaves. -/
def sampleSubcat : Subcategory :=
  { name := "S1", description := "ds", leaf_topics := [sampleLeaf1, sampleLeaf2] }

/-- Sample main category holding the sample subcategory. -/
def sampleCat : Category :=
  { name := "C", description := "dc", subcategories := [sampleSubcat] }

/-- Sample parsed structure reply. -/
def sampleStructure : AnalysisData :=
  { analysis := sampleAnalysis, main_categories := [sampleCat] }

/-- Claim C2 witness: the sample structure (1 category, 1 subcategory,
2 leaf topics) inserted into the empty store yields 1 + 1 + 1 + 2 = 5
topic records and root id 0. -/
theorem claim2_hierarchy_inserter_witness :
    (∃ final,
      insert_topic_hierarchy noFail emptyStore sampleStructure "A" =
        .ok (emptyStore.nextTopicId, final) ∧
      final.topics = emptyStore.topics ++ rootFinalRec emptyStore.nextTopicId sampleStructure "A" ::
        catRecs (emptyStore.nextTopicId + 1) emptyStore.nextTopicId sampleStructure.main_categories ∧
      final.topics.length = emptyStore.topics.length +
        (1 + sampleStructure.main_categories.length + totalSubcats sampleStructure.main_categories
          + totalLeaves sampleStructure.main_categories) ∧
      (rootFinalRec emptyStore.nextTopicId sampleStructure "A").id = emptyStore.nextTopicId ∧
      (rootFinalRec emptyStore.nextTopicId sampleStructure "A").parent_id = none) ∧
    1 + sampleStructure.main_categories.length + totalSubcats sampleStructure.main_categories
      + totalLeaves sampleStructure.main_categories = 5 :=
  ⟨claim2_hierarchy_inserter sampleStructure "A" emptyStore (by simp [emptyStore])
      (by simp [emptyStore]),
    by decide⟩

/-- Claim C3: for every question batch whose elements carry the three
mandatory keys, `insert_questions_with_metadata` inserts exactly one
question record per input element and returns the created identifiers in
input order (`idRange`); the inserted choice rows are exactly the supplied
choices of each question, enumerated with `sort_order` equal to input
position (the `expectedChoiceRecs`/`buildChoices` builder) — in
particular, a `true_false` question supplied with only one choice yields
exactly that one choice, nothing synthetic — and likewise the
correct-answer rows. -/
theorem claim3_question_inserter (topic_id : Nat) (qs : List QData) (st : StoreState)
    (h : ∀ q ∈ qs, wfQ q) :
    ∃ st', insert_questions_with_metadata noFail topic_id st qs =
        .ok (idRange st.nextQuestionId qs.length, st') ∧
      st'.questions.length = st.questions.length + qs.length ∧
      st'.questions = st.questions ++ expectedQuestionRecs topic_id st.nextQuestionId qs ∧
      st'.choices = st.choices ++ expectedChoiceRecs st.nextQuestionId qs ∧
      st'.correct_answers = st.correct_answers ++ expectedAnswerRecs st.nextQuestionId qs := by
  refine ⟨_, insert_questions_noFail topic_id qs st h, ?_, rfl, rfl, rfl⟩
  simp [List.length_append, expectedQuestionRecs_length]

/-- Sample `true_false` question carrying only one choice (scenario C of
the specification). -/
def sampleTrueFalseOneChoice : QData :=
  { question_text := some "T", question_type := some "true_false",
    explanation := some "E",
    choices := some [{ text := "True", is_correct := true }] }

/-- Claim C3 witness: inserting the single-choice `true_false` question
into the empty store creates one question with id 0 and exactly the one
supplied choice at `sort_order` 0 — no synthetic second choice. -/
theorem claim3_question_inserter_witness :
    (∃ st', insert_questions_with_metadata noFail 5 emptyStore [sampleTrueFalseOneChoice] =
        .ok (idRange emptyStore.nextQuestionId [sampleTrueFalseOneChoice].length, st') ∧
      st'.questions.length = emptyStore.questions.length + [sampleTrueFalseOneChoice].length ∧
      st'.questions = emptyStore.questions ++
        expectedQuestionRecs 5 emptyStore.nextQuestionId [sampleTrueFalseOneChoice] ∧
      st'.choices = emptyStore.choices ++
        expectedChoiceRecs emptyStore.nextQuestionId [sampleTrueFalseOneChoice] ∧
      st'.correct_answers = emptyStore.correct_answers ++
        expectedAnswerRecs emptyStore.nextQuestionId [sampleTrueFalseOneChoice]) ∧
    expectedChoiceRecs emptyStore.nextQuestionId [sampleTrueFalseOneChoice] =
      [{ question_id := 0, choice_text := "True", is_correct := true, sort_order := 0,
         metadata_auto_generated := true }] :=
  ⟨claim3_question_inserter 5 [sampleTrueFalseOneChoice] emptyStore
      (by
        intro q hq
        simp only [List.mem_singleton] at hq
        subst hq
        exact ⟨rfl, rfl, rfl⟩),
    by decide⟩

/-- Claim C8: the mapped question record substitutes `points := 1` and
`difficulty_level := 1` when those keys are absent and passes supplied
values through unchanged (the `.get(k, default)` reads), and each mapped
correct-answer record substitutes `is_case_sensitive := false` and
`is_exact_match := true` when absent, again passing supplied values
through; the mandatory text fields are passed through verbatim. -/
theorem claim8_mapper_defaults (topic_id qid i : Nat) (qtext qtype expl : String)
    (q : QData) (a : AnswerIn) (rest : List AnswerIn) :
    (buildQuestion topic_id qid qtext qtype expl q).points = q.points.getD 1 ∧
    (buildQuestion topic_id qid qtext qtype expl q).difficulty_level =
      q.difficulty_level.getD 1 ∧
    (q.points = none → (buildQuestion topic_id qid qtext qtype expl q).points = 1) ∧
    (q.difficulty_level = none →
      (buildQuestion topic_id qid qtext qtype expl q).difficulty_level = 1) ∧
    (∀ p, q.points = some p → (buildQuestion topic_id qid qtext qtype expl q).points = p) ∧
    (∀ dl, q.difficulty_level = some dl →
      (buildQuestion topic_id qid qtext qtype expl q).difficulty_level = dl) ∧
    (buildQuestion topic_id qid qtext qtype expl q).question_text = qtext ∧
    (buildQuestion topic_id qid qtext qtype expl q).question_type = qtype ∧
    (buildQuestion topic_id qid qtext qtype expl q).explanation = expl ∧
    buildAnswers qid i (a :: rest) =
      { question_id := qid, answer_text := a.text,
        is_case_sensitive := a.is_case_sensitive.getD false,
        is_exact_match := a.is_exact_match.getD true,
        points := a.points.getD 1, sort_order := i } :: buildAnswers qid (i + 1) rest ∧
    (a.is_case_sensitive = none →
      (a.is_case_sensitive.getD false) = false) ∧
    (a.is_exact_match = none → (a.is_exact_match.getD true) = true) ∧
    (∀ b, a.is_case_sensitive = some b → (a.is_case_sensitive.getD false) = b) ∧
    (∀ b, a.is_exact_match = some b → (a.is_exact_match.getD true) = b) := by
  refine ⟨rfl, rfl, ?_, ?_, ?_, ?_, rfl, rfl, rfl, rfl, ?_, ?_, ?_, ?_⟩ <;>
    · intro h
      try intro hh
      simp_all [buildQuestion]

/-- Claim C8 witness: a question supplying no `points` and a
`difficulty_level` of 3, with a correct answer supplying no
`is_case_sensitive` and `is_exact_match := false`, maps to points 1,
difficulty 3, case-insensitive, non-exact. -/
theorem claim8_mapper_defaults_witness :
    (buildQuestion 1 2 "t" "short_answer" "e"
        { question_text := some "t", question_type := some "short_answer",
          explanation := some "e", difficulty_level := some 3 }).points = 1 ∧
    (buildQuestion 1 2 "t" "short_answer" "e"
        { question_text := some "t", question_type := some "short_answer",
          explanation := some "e", difficulty_level := some 3 }).difficulty_level = 3 ∧
    buildAnswers 2 0 [{ text := "a", is_exact_match := some false }] =
      [{ question_id := 2, answer_text := "a", is_case_sensitive := false,
         is_exact_match := false, points := 1, sort_order := 0 }] := by
  have h := claim8_mapper_defaults 1 2 0 "t" "short_answer" "e"
    { question_text := some "t", question_type := some "short_answer",
      explanation := some "e", difficulty_level := some 3 }
    { text := "a", is_exact_match := some false } []
  refine ⟨h.2.2.1 rfl, h.2.2.2.2.2.1 3 rfl, ?_⟩
  rw [h.2.2.2.2.2.2.2.2.2.1]
  decide

/-- Claim C10: the structure-analysis step is insensitive to `test_mode` —
for every topic input the request issued is identical for both flag
values, and with the same client the returned result is identical; the
reduced-volume flag only reaches the per-leaf question step. -/
theorem claim10_analysis_mode_insensitive (topic_input : String)
    (client : Request → ClientReply AnalysisData) :
    analysisRequest topic_input true = analysisRequest topic_input false ∧
    analyze_topic_and_generate_structure client topic_input true =
      analyze_topic_and_generate_structure client topic_input false :=
  ⟨rfl, rfl⟩

/-- Claim C1: per-leaf failure isolation in `generate_intelligent_course`.
Part 1: a request failure (`svcError`) or parse failure (`badJson`) for
one leaf topic appends exactly that topic name to `failed_topics` and
leaves the total, the remaining failures and the final store identical to
the run over the remaining leaf topics from an unchanged store — the
failed topic contributes nothing and every subsequent leaf is still
processed.  Part 2: the same holds for an insertion failure, with the
remaining topics processed from the store as the raise left it.  Part 3:
once analysis and hierarchy insertion succeed, the run returns a summary
for every question client and fail schedule whatsoever — no per-leaf
failure aborts it. -/
theorem claim1_per_leaf_isolation :
    (∀ (qClient : Request → ClientReply (List QData)) (fail : Nat → Bool)
        (test_mode : Bool) (st : StoreState) (t : TopicRec) (rest : List TopicRec),
      (qClient (questionRequest (topicDataOf t) test_mode) = .svcError ∨
        qClient (questionRequest (topicDataOf t) test_mode) = .badJson) →
      genLoop qClient fail test_mode st (t :: rest) =
        ((genLoop qClient fail test_mode st rest).1,
          t.name :: (genLoop qClient fail test_mode st rest).2.1,
          (genLoop qClient fail test_mode st rest).2.2)) ∧
    (∀ (qClient : Request → ClientReply (List QData)) (fail : Nat → Bool)
        (test_mode : Bool) (st : StoreState) (t : TopicRec) (rest : List TopicRec)
        (qs : List QData) (stE : StoreState),
      qClient (questionRequest (topicDataOf t) test_mode) = .ok qs →
      insert_questions_with_metadata fail t.id st qs = .error stE →
      genLoop qClient fail test_mode st (t :: rest) =
        ((genLoop qClient fail test_mode stE rest).1,
          t.name :: (genLoop qClient fail test_mode stE rest).2.1,
          (genLoop qClient fail test_mode stE rest).2.2)) ∧
    (∀ (aClient : Request → ClientReply AnalysisData)
        (qClient : Request → ClientReply (List QData)) (fail : Nat → Bool)
        (st : StoreState) (topic_input : String) (test_mode : Bool)
        (d : AnalysisData) (mid : Nat) (stH : StoreState),
      aClient (analysisRequest topic_input test_mode) = .ok d →
      insert_topic_hierarchy fail st d topic_input = .ok (mid, stH) →
      ∃ s st', generate_intelligent_course aClient qClient fail st topic_input test_mode =
        .ok (s, st')) := by
  refine ⟨?_, ?_, ?_⟩
  · intro qClient fail test_mode st t rest h
    rcases h with h | h <;>
      simp [genLoop, generate_comprehensive_questions, h]
  · intro qClient fail test_mode st t rest qs stE hgen hins
    cases qs with
    | nil => simp [insert_questions_with_metadata] at hins
    | cons q qs =>
      rw [genLoop]
      simp only [generate_comprehensive_questions, hgen, hins]
  · intro aClient qClient fail st topic_input test_mode d mid stH ha hh
    rw [generate_intelligent_course]
    simp only [analyze_topic_and_generate_structure, ha, hh]
    exact ⟨_, _, rfl⟩

/-- Sample leaf-topic row used by the loop witnesses. -/
def t0 : TopicRec :=
  { id := 0, name := "T", description := "d", parent_id := none, slug := "T",
    metadata := {} }

/-- Sample question payload missing the mandatory `question_text` key. -/
def qMissingText : QData :=
  { question_type := some "short_answer", explanation := some "e" }

/-- Claim C1 witness: with a client whose reply is unparseable the single
leaf topic lands in `failed_topics` with zero questions; with a client
whose reply parses but misses `question_text` (so the insert raises
before writing) the same happens; and a run whose analysis and hierarchy
steps succeed returns a summary even though every per-leaf request
fails. -/
theorem claim1_per_leaf_isolation_witness :
    genLoop (fun _ => ClientReply.badJson) noFail true emptyStore [t0] =
      (0, ["T"], emptyStore) ∧
    genLoop (fun _ => ClientReply.ok [qMissingText]) noFail true emptyStore [t0] =
      (0, ["T"], emptyStore) ∧
    (∃ s st', generate_intelligent_course (fun _ => ClientReply.ok sampleStructure)
      (fun _ => ClientReply.badJson) noFail emptyStore "A" true = .ok (s, st')) := by
  refine ⟨?_, ?_, ?_⟩
  · have h := claim1_per_leaf_isolation.1 (fun _ => ClientReply.badJson) noFail true
      emptyStore t0 [] (Or.inr rfl)
    rw [h]; rfl
  · have h := claim1_per_leaf_isolation.2.1 (fun _ => ClientReply.ok [qMissingText])
      noFail true emptyStore t0 [] [qMissingText] emptyStore rfl rfl
    rw [h]; rfl
  · exact claim1_per_leaf_isolation.2.2 (fun _ => ClientReply.ok sampleStructure)
      (fun _ => ClientReply.badJson) noFail emptyStore "A" true sampleStructure _ _ rfl
      (insert_topic_hierarchy_noFail sampleStructure "A" emptyStore
        (by simp [emptyStore]) (by simp [emptyStore]))

/-- A client reply that yields an empty parsed question list: either text
`json.loads` rejects, or a valid JSON empty array. -/
def emptyishReply (r : ClientReply (List QData)) : Prop :=
  r = .badJson ∨ r = .ok []

/-- Claim C9: a leaf topic whose generation step yields an empty question
list is recorded as a failure exactly like a parse failure.  Part 1: two
questiongeneration clients that agree everywhere except that where one
returns unparseable text the other may return a valid empty array (and
vice versa) drive the whole loop to identical totals, failed lists and
stores — the two conditions are indistinguishable in the summary.
Part 2: a leaf topic stays out of `failed_topics` precisely when its reply
parses to a non-empty list and its insertion succeeds — so it contributes
questions exactly in that case. -/
theorem claim9_empty_list_is_failure :
    (∀ (qc1 qc2 : Request → ClientReply (List QData)) (fail : Nat → Bool)
        (test_mode : Bool) (ts : List TopicRec) (st : StoreState),
      (∀ req, qc1 req = qc2 req ∨ (emptyishReply (qc1 req) ∧ emptyishReply (qc2 req))) →
      genLoop qc1 fail test_mode st ts = genLoop qc2 fail test_mode st ts) ∧
    (∀ (qc : Request → ClientReply (List QData)) (fail : Nat → Bool)
        (test_mode : Bool) (st : StoreState) (t : TopicRec),
      (genLoop qc fail test_mode st [t]).2.1 = [] ↔
        ∃ qs ids st', qc (questionRequest (topicDataOf t) test_mode) = .ok qs ∧ qs ≠ [] ∧
          insert_questions_with_metadata fail t.id st qs = .ok (ids, st')) := by
  constructor
  · intro qc1 qc2 fail test_mode ts
    induction ts with
    | nil => intro st _; rfl
    | cons t rest ih =>
      intro st h
      have hh := h (questionRequest (topicDataOf t) test_mode)
      rw [genLoop, genLoop]
      rcases hh with heq | ⟨h1, h2⟩
      · rw [generate_comprehensive_questions, generate_comprehensive_questions, heq]
        rcases hr : qc2 (questionRequest (topicDataOf t) test_mode) with qs | _ | _
        · cases qs with
          | nil => simp only [ih _ h]
          | cons q qs =>
            rcases hins : insert_questions_with_metadata fail t.id st (q :: qs) with stE | p
            · simp only [hins, ih _ h]
            · simp only [hins, ih _ h]
        · simp only [ih _ h]
        · simp only [ih _ h]
      · have g1 : generate_comprehensive_questions qc1 (topicDataOf t) test_mode = .ok [] := by
          rcases h1 with h1 | h1 <;> simp [generate_comprehensive_questions, h1]
        have g2 : generate_comprehensive_questions qc2 (topicDataOf t) test_mode = .ok [] := by
          rcases h2 with h2 | h2 <;> simp [generate_comprehensive_questions, h2]
        rw [g1, g2]
        simp only [ih _ h]
  · intro qc fail test_mode st t
    rcases hr : qc (questionRequest (topicDataOf t) test_mode) with qs | _ | _
    · cases qs with
      | nil =>
        simp only [genLoop, generate_comprehensive_questions, hr]
        constructor
        · intro hcon; cases hcon
        · rintro ⟨qs', ids, st', hq, hne, _⟩
          cases hq
          exact absurd rfl hne
      | cons q qs =>
        rcases hins : insert_questions_with_metadata fail t.id st (q :: qs) with stE | p
        · simp only [genLoop, generate_comprehensive_questions, hr, hins]
          constructor
          · intro hcon; cases hcon
          · rintro ⟨qs', ids, st', hq, hne, hok⟩
            cases hq
            rw [hins] at hok
            cases hok
        · obtain ⟨ids, st1⟩ := p
          simp only [genLoop, generate_comprehensive_questions, hr, hins]
          constructor
          · intro _
            exact ⟨q :: qs, ids, st1, rfl, by simp, hins⟩
          · intro _; trivial
    · simp only [genLoop, generate_comprehensive_questions, hr]
      constructor
      · intro hcon; cases hcon
      · rintro ⟨qs', ids, st', hq, hne, _⟩
        cases hq
    · simp only [genLoop, generate_comprehensive_questions, hr]
      constructor
      · intro hcon; cases hcon
      · rintro ⟨qs', ids, st', hq, hne, _⟩
        cases hq

/-- Sample well-formed `fill_in_blank` question with one correct answer. -/
def qGood : QData :=
  { question_text := some "t", question_type := some "fill_in_blank",
    explanation := some "e", correct_answers := some [{ text := "a" }] }

/-- Claim C9 witness: a client returning unparseable text and a client
returning a valid empty array drive the loop to the identical outcome —
the topic is failed with zero questions — while a client returning one
well-formed question keeps the topic out of `failed_topics`. -/
theorem claim9_empty_list_is_failure_witness :
    genLoop (fun _ => ClientReply.badJson) noFail true emptyStore [t0] =
      genLoop (fun _ => ClientReply.ok []) noFail true emptyStore [t0] ∧
    genLoop (fun _ => ClientReply.ok []) noFail true emptyStore [t0] =
      (0, ["T"], emptyStore) ∧
    ((genLoop (fun _ => ClientReply.ok [qGood]) noFail true emptyStore [t0]).2.1 = [] ↔
      ∃ qs ids st',
        (fun _ => ClientReply.ok [qGood]) (questionRequest (topicDataOf t0) true) =
          ClientReply.ok qs ∧ qs ≠ [] ∧
        insert_questions_with_metadata noFail t0.id emptyStore qs = .ok (ids, st')) ∧
    (genLoop (fun _ => ClientReply.ok [qGood]) noFail true emptyStore [t0]).2.1 = [] := by
  refine ⟨?_, ?_, ?_, ?_⟩
  · exact claim9_empty_list_is_failure.1 (fun _ => ClientReply.badJson)
      (fun _ => ClientReply.ok []) noFail true [t0] emptyStore
      (fun _ => Or.inr ⟨Or.inl rfl, Or.inr rfl⟩)
  · rfl
  · exact claim9_empty_list_is_failure.2 (fun _ => ClientReply.ok [qGood]) noFail true
      emptyStore t0
  · rfl

/-- Claim C6 (amended): the choice/answer dispatch of
`insert_questions_with_metadata` is keyed on the presence of the
`choices` / `correct_answers` fields alone, not on `question_type`: for
every question type string `ty` whatsoever — recognised or not — the
insert succeeds, the choice rows written are exactly the supplied choices
(`choicesOf`, empty when the key is absent or empty) and the answer rows
are exactly the supplied answers, both independent of `ty`.  In
particular an unrecognised type is inserted silently rather than
rejected. -/
theorem claim6_dispatch_by_presence (st : StoreState) (topic_id : Nat) (q : QData)
    (ty : String) (htext : q.question_text.isSome) (hexpl : q.explanation.isSome) :
    ∃ st',
      insert_questions_with_metadata noFail topic_id st
        [{ q with question_type := some ty }] = .ok ([st.nextQuestionId], st') ∧
      st'.choices = st.choices ++ choicesOf st.nextQuestionId q ∧
      st'.correct_answers = st.correct_answers ++ answersOf st.nextQuestionId q := by
  have hwf : ∀ p ∈ [{ q with question_type := some ty }], wfQ p := by
    intro p hp
    simp only [List.mem_singleton] at hp
    subst hp
    exact ⟨htext, rfl, hexpl⟩
  have h := insert_questions_noFail topic_id [{ q with question_type := some ty }] st hwf
  exact ⟨_, h, by simp [expectedChoiceRecs, choicesOf], by simp [expectedAnswerRecs, answersOf]⟩

/-- Sample question of the unrecognised type `essay` carrying one choice. -/
def essayWithChoice : QData :=
  { question_text := some "Q", question_type := some "essay", explanation := some "E",
    choices := some [{ text := "A", is_correct := false }] }

/-- Success flag and choice-row count of a question-inserter outcome. -/
def qInsertOutcome (r : Except StoreState (List Nat × StoreState)) : Bool × Nat :=
  match r with
  | .ok (_, st') => (true, st'.choices.length)
  | .error st' => (false, st'.choices.length)

/-- Claim C6 counterexample: a question whose `question_type` is `essay` —
neither `multiple_choice` nor `true_false`, and not a type the generation
path can produce — is inserted without any failure, and its supplied
choice row is inserted anyway: choice insertion is not conditioned on the
question type and an unrecognised type is not rejected, contradicting the
claim on both counts. -/
theorem claim6_counterexample :
    essayWithChoice.question_type = some "essay" ∧
    (("essay" == "multiple_choice") || ("essay" == "true_false")) = false ∧
    qInsertOutcome
      (insert_questions_with_metadata noFail 7 emptyStore [essayWithChoice]) =
      (true, 1) := by
  refine ⟨rfl, by decide, by decide⟩

/-- Claim C6 witness (for the amended claim): the `essay` question with
one choice goes through the inserter successfully and its one choice row
is written exactly as supplied. -/
theorem claim6_dispatch_by_presence_witness :
    (∃ st',
      insert_questions_with_metadata noFail 7 emptyStore
        [{ essayWithChoice with question_type := some "essay" }] =
        .ok ([emptyStore.nextQuestionId], st') ∧
      st'.choices = emptyStore.choices ++ choicesOf emptyStore.nextQuestionId essayWithChoice ∧
      st'.correct_answers = emptyStore.correct_answers ++
        answersOf emptyStore.nextQuestionId essayWithChoice) ∧
    choicesOf emptyStore.nextQuestionId essayWithChoice =
      [{ question_id := 0, choice_text := "A", is_correct := false, sort_order := 0,
         metadata_auto_generated := true }] :=
  ⟨claim6_dispatch_by_presence emptyStore 7 essayWithChoice "essay" rfl rfl, by decide⟩

/-- Store `b` retains every row of store `a` as a prefix: nothing already
written has been deleted or rolled back. -/
def topicsExtend (a b : StoreState) : Prop :=
  ∃ suffix, b.topics = a.topics ++ suffix

theorem topicsExtend_trans {a b c : StoreState}
    (h1 : topicsExtend a b) (h2 : topicsExtend b c) : topicsExtend a c := by
  obtain ⟨s1, e1⟩ := h1
  obtain ⟨s2, e2⟩ := h2
  exact ⟨s1 ++ s2, by rw [e2, e1, List.append_assoc]⟩

/-- A hierarchy-walk outcome extends the starting store, whether it raised
or returned. -/
def extendsResult (st : StoreState) : Except StoreState (Nat × StoreState) → Prop
  | .error e => topicsExtend st e
  | .ok (_, st1) => topicsExtend st st1

theorem insertTopic_extends (fail : Nat → Bool) (st : StoreState) (n d : String)
    (p : Option Nat) (m : TopicMeta) :
    extendsResult st (insertTopic fail st n d p m) := by
  rw [insertTopic]
  cases hf : fail st.callCount with
  | true => exact ⟨[], by simp⟩
  | false => exact ⟨_, rfl⟩

theorem insertLeaves_extends (fail : Nat → Bool) (scid : Nat) (ls : List LeafTopic) :
    ∀ (st : StoreState) (acc : Nat), extendsResult st (insertLeaves fail scid st acc ls) := by
  induction ls with
  | nil => intro st acc; exact ⟨[], by simp [insertLeaves]⟩
  | cons l rest ih =>
    intro st acc
    have h0 := insertTopic_extends fail st l.name l.description (some scid) (leafMetaOf l)
    rcases hi : insertTopic fail st l.name l.description (some scid) (leafMetaOf l)
      with e | ⟨id, st1⟩
    · rw [hi] at h0
      simp only [insertLeaves, hi]
      exact h0
    · rw [hi] at h0
      simp only [insertLeaves, hi]
      have h1 := ih st1 (acc + strategyCount l)
      rcases hr : insertLeaves fail scid st1 (acc + strategyCount l) rest with e | ⟨a, st2⟩ <;>
        · rw [hr] at h1
          exact topicsExtend_trans h0 h1

theorem insertSubcategories_extends (fail : Nat → Bool) (cid : Nat)
    (scs : List Subcategory) :
    ∀ (st : StoreState) (acc : Nat),
      extendsResult st (insertSubcategories fail cid st acc scs) := by
  induction scs with
  | nil => intro st acc; exact ⟨[], by simp [insertSubcategories]⟩
  | cons sc rest ih =>
    intro st acc
    have h0 := insertTopic_extends fail st sc.name sc.description (some cid) (subcatMetaOf sc)
    rcases hi : insertTopic fail st sc.name sc.description (some cid) (subcatMetaOf sc)
      with e | ⟨scid, st1⟩
    · rw [hi] at h0
      simp only [insertSubcategories, hi]
      exact h0
    · rw [hi] at h0
      simp only [insertSubcategories, hi]
      have h1 := insertLeaves_extends fail scid sc.leaf_topics st1 acc
      rcases hl : insertLeaves fail scid st1 acc sc.leaf_topics with e | ⟨acc1, st2⟩
      · rw [hl] at h1
        exact topicsExtend_trans h0 h1
      · rw [hl] at h1
        show extendsResult st (insertSubcategories fail cid st2 acc1 rest)
        have h2 := ih st2 acc1
        rcases hr : insertSubcategories fail cid st2 acc1 rest with e | ⟨a, st3⟩ <;>
          · rw [hr] at h2
            exact topicsExtend_trans h0 (topicsExtend_trans h1 h2)

theorem insertCategories_extends (fail : Nat → Bool) (rid : Nat) (cs : List Category) :
    ∀ (st : StoreState) (acc : Nat),
      extendsResult st (insertCategories fail rid st acc cs) := by
  induction cs with
  | nil => intro st acc; exact ⟨[], by simp [insertCategories]⟩
  | cons c rest ih =>
    intro st acc
    have h0 := insertTopic_extends fail st c.name c.description (some rid) (catMetaOf c)
    rcases hi : insertTopic fail st c.name c.description (some rid) (catMetaOf c)
      with e | ⟨cid, st1⟩
    · rw [hi] at h0
      simp only [insertCategories, hi]
      exact h0
    · rw [hi] at h0
      simp only [insertCategories, hi]
      have h1 := insertSubcategories_extends fail cid c.subcategories st1 acc
      rcases hl : insertSubcategories fail cid st1 acc c.subcategories with e | ⟨acc1, st2⟩
      · rw [hl] at h1
        exact topicsExtend_trans h0 h1
      · rw [hl] at h1
        show extendsResult st (insertCategories fail rid st2 acc1 rest)
        have h2 := ih st2 acc1
        rcases hr : insertCategories fail rid st2 acc1 rest with e | ⟨a, st3⟩ <;>
          · rw [hr] at h2
            exact topicsExtend_trans h0 (topicsExtend_trans h1 h2)

/-- Claim C7: if any single write fails during hierarchy insertion (under
a store with no pre-existing root slug, so the upsert is a plain insert),
`insert_topic_hierarchy` raises: the error state still carries every row
the starting store had plus every row written before the failure — no
rollback — and `generate_intelligent_course` propagates exactly that
failure state to its caller as a fatal run failure. -/
theorem claim7_failure_propagates_no_rollback (fail : Nat → Bool) (st : StoreState)
    (d : AnalysisData) (name : String) (st' : StoreState)
    (herr : insert_topic_hierarchy fail st d name = .error st')
    (hslug : ∀ t ∈ st.topics, t.slug ≠ slugOf name) :
    topicsExtend st st' ∧
    ∀ (aClient : Request → ClientReply AnalysisData)
      (qClient : Request → ClientReply (List QData)) (test_mode : Bool),
      aClient (analysisRequest name test_mode) = .ok d →
      generate_intelligent_course aClient qClient fail st name test_mode = .error st' := by
  constructor
  · have hfind : st.topics.find? (fun t => t.slug == slugOf name) = none := by
      refine List.find?_eq_none.mpr ?_
      intro t ht
      simpa using hslug t ht
    rw [insert_topic_hierarchy, upsertTopic] at herr
    cases hf : fail st.callCount with
    | true =>
      simp only [hf, if_true, ite_true] at herr
      cases herr
      exact ⟨[], by simp⟩
    | false =>
      simp only [hf, Bool.false_eq_true, if_false, ite_false, hfind] at herr
      have hext1 : topicsExtend st
          ({ st with
             topics := st.topics ++
               [{ id := st.nextTopicId, name := name,
                  description := "Complete course: " ++ name, parent_id := none,
                  slug := slugOf name, metadata := rootMetaOf d }],
             nextTopicId := st.nextTopicId + 1,
             callCount := st.callCount + 1 } : StoreState) :=
        ⟨[{ id := st.nextTopicId, name := name,
            description := "Complete course: " ++ name, parent_id := none,
            slug := slugOf name, metadata := rootMetaOf d }], rfl⟩
      have h1 := insertCategories_extends fail st.nextTopicId d.main_categories
        ({ st with
           topics := st.topics ++
             [{ id := st.nextTopicId, name := name,
                description := "Complete course: " ++ name, parent_id := none,
                slug := slugOf name, metadata := rootMetaOf d }],
           nextTopicId := st.nextTopicId + 1,
           callCount := st.callCount + 1 } : StoreState) 0
      rcases hc : insertCategories fail st.nextTopicId
          ({ st with
             topics := st.topics ++
               [{ id := st.nextTopicId, name := name,
                  description := "Complete course: " ++ name, parent_id := none,
                  slug := slugOf name, metadata := rootMetaOf d }],
             nextTopicId := st.nextTopicId + 1,
             callCount := st.callCount + 1 } : StoreState) 0 d.main_categories
        with e | ⟨total, st2⟩
      · rw [hc] at h1 herr
        cases herr
        exact topicsExtend_trans hext1 h1
      · rw [hc] at h1
        simp only [hc, updateTopicMeta] at herr
        cases hf2 : fail st2.callCount with
        | true =>
          simp only [hf2, if_true, ite_true] at herr
          cases herr
          exact topicsExtend_trans hext1 (topicsExtend_trans h1 ⟨[], by simp⟩)
        | false =>
          simp only [hf2, Bool.false_eq_true, if_false, ite_false] at herr
          cases herr
  · intro aClient qClient test_mode ha
    rw [generate_intelligent_course]
    simp only [analyze_topic_and_generate_structure, ha, herr]

/-- Fail schedule injecting a persistence failure on the second write call
(the first category insert, right after the root upsert). -/
def failSecondWrite : Nat → Bool := fun k => k == 1

/-- The store state the hierarchy insertion raises with when the first
category insert fails on the sample structure: the root row written just
before is still there. -/
def hierErrState : StoreState :=
  { topics := [{ id := 0, name := "A", description := "Complete course: " ++ "A",
                 parent_id := none, slug := slugOf "A",
                 metadata := rootMetaOf sampleStructure }],
    nextTopicId := 1, callCount := 2 }

/-- Claim C7 witness: with the sample structure and a failure injected on
the first category insert, the run aborts, the caller receives exactly
the raise state, and that state still holds the root row written before
the failure (no rollback). -/
theorem claim7_failure_propagates_no_rollback_witness :
    topicsExtend emptyStore hierErrState ∧
    generate_intelligent_course (fun _ => ClientReply.ok sampleStructure)
      (fun _ => ClientReply.badJson) failSecondWrite emptyStore "A" true =
      .error hierErrState := by
  have h := claim7_failure_propagates_no_rollback failSecondWrite emptyStore
    sampleStructure "A" hierErrState rfl (by simp [emptyStore])
  exact ⟨h.1, h.2 _ _ true rfl⟩

theorem find?_slug_append (s : String) (pre : List TopicRec) (rt : TopicRec)
    (rest : List TopicRec) (hpre : ∀ t ∈ pre, t.slug ≠ s) (hrt : rt.slug = s) :
    (pre ++ rt :: rest).find? (fun t => t.slug == s) = some rt := by
  induction pre with
  | nil =>
    simp only [List.nil_append]
    exact List.find?_cons_of_pos _ (by simp [hrt])
  | cons a pre ih =>
    rw [List.cons_append, List.find?_cons_of_neg _ (by simp [hpre a (by simp)])]
    exact ih (fun t ht => hpre t (by simp [ht]))

theorem updateFirstSlug_append (s : String) (f : TopicRec → TopicRec)
    (pre : List TopicRec) (rt : TopicRec) (rest : List TopicRec)
    (hpre : ∀ t ∈ pre, t.slug ≠ s) (hrt : rt.slug = s) :
    updateFirstSlug s f (pre ++ rt :: rest) = pre ++ f rt :: rest := by
  induction pre with
  | nil => simp [updateFirstSlug, hrt]
  | cons a pre ih =>
    rw [List.cons_append, updateFirstSlug]
    have ha : (a.slug == s) = false := by simp [hpre a (by simp)]
    rw [ha]
    simp only [Bool.false_eq_true, if_false, ite_false, List.cons_append]
    rw [ih (fun t ht => hpre t (by simp [ht]))]

theorem catRecs_countP_roots (rid : Nat) (cs : List Category) (idStart : Nat) :
    (catRecs idStart rid cs).countP (fun t => t.parent_id.isNone) = 0 := by
  refine List.countP_eq_zero.mpr ?_
  intro t ht
  obtain ⟨p, hp⟩ := catRecs_parent_some rid cs idStart t ht
  simp [hp]

/-- Characterisation of `insert_topic_hierarchy` when the store already
holds a row on the root slug (the re-run case): the upsert updates that
row in place, keeping its id; the category walk appends fresh records; the
final patch touches only the root.  No new root row is created. -/
theorem insert_topic_hierarchy_upsert (d : AnalysisData) (name : String) (st : StoreState)
    (pre : List TopicRec) (rt : TopicRec) (rest : List TopicRec)
    (hsplit : st.topics = pre ++ rt :: rest)
    (hpre : ∀ t ∈ pre, t.slug ≠ slugOf name)
    (hrt : rt.slug = slugOf name)
    (hpreid : ∀ t ∈ pre, t.id ≠ rt.id)
    (hrestid : ∀ t ∈ rest, t.id ≠ rt.id)
    (hrtid : rt.id < st.nextTopicId) :
    insert_topic_hierarchy noFail st d name =
      .ok (rt.id,
        { st with
          topics := pre ++ rootFinalRec rt.id d name ::
            (rest ++ catRecs st.nextTopicId rt.id d.main_categories),
          nextTopicId := st.nextTopicId + catsSize d.main_categories,
          callCount := st.callCount + 2 + catsSize d.main_categories }) := by
  have hfind : st.topics.find? (fun t => t.slug == slugOf name) = some rt := by
    rw [hsplit]
    exact find?_slug_append _ pre rt rest hpre hrt
  rw [insert_topic_hierarchy, upsertTopic]
  simp only [noFail, Bool.false_eq_true, if_false, ite_false, hfind]
  rw [hsplit, updateFirstSlug_append _ _ pre rt rest hpre hrt]
  simp only [insertCategories_noFail, updateTopicMeta, noFail, Bool.false_eq_true,
    if_false, ite_false]
  simp only [Except.ok.injEq, Prod.mk.injEq, StoreState.mk.injEq, and_true, true_and]
  refine ⟨?_, by omega⟩
  rw [List.map_append, List.map_append, List.map_cons]
  have hmpre : pre.map
      (fun t => if t.id == rt.id then
        { t with metadata := { rootMetaOf d with
            total_estimated_questions := some (0 + catsCount d.main_categories) } } else t)
      = pre := by
    refine Eq.trans (List.map_congr_left ?_) (List.map_id' pre)
    intro t ht
    simp [hpreid t ht]
  have hmrest : rest.map
      (fun t => if t.id == rt.id then
        { t with metadata := { rootMetaOf d with
            total_estimated_questions := some (0 + catsCount d.main_categories) } } else t)
      = rest := by
    refine Eq.trans (List.map_congr_left ?_) (List.map_id' rest)
    intro t ht
    simp [hrestid t ht]
  have hmcat : (catRecs st.nextTopicId rt.id d.main_categories).map
      (fun t => if t.id == rt.id then
        { t with metadata := { rootMetaOf d with
            total_estimated_questions := some (0 + catsCount d.main_categories) } } else t)
      = catRecs st.nextTopicId rt.id d.main_categories := by
    refine Eq.trans (List.map_congr_left ?_) (List.map_id' _)
    intro t ht
    have hge := catRecs_id_ge rt.id d.main_categories st.nextTopicId t ht
    have : t.id ≠ rt.id := by omega
    simp [this]
  rw [hmpre, hmrest, hmcat]
  simp [rootFinalRec, rootMetaOf, List.append_assoc]

/-- Claim C4: running `insert_topic_hierarchy` twice with the same root
name (over a store with no prior row on that slug, no prior root rows,
and well-formed ids) yields exactly one root record — a record with
`parent_id = null` — never two: the second run's upsert conflicts on the
slug derived from the name, updates the existing root in place and
returns the same root identifier instead of creating a duplicate. -/
theorem claim4_idempotent_root_upsert (d dp : AnalysisData) (name : String)
    (st : StoreState)
    (h1 : ∀ t ∈ st.topics, t.slug ≠ slugOf name)
    (h2 : ∀ t ∈ st.topics, t.parent_id ≠ none)
    (h3 : ∀ t ∈ st.topics, t.id < st.nextTopicId) :
    ∃ st1 st2,
      insert_topic_hierarchy noFail st d name = .ok (st.nextTopicId, st1) ∧
      insert_topic_hierarchy noFail st1 dp name = .ok (st.nextTopicId, st2) ∧
      st2.topics.countP (fun t => t.parent_id.isNone) = 1 := by
  have hrun1 := insert_topic_hierarchy_noFail d name st h1 h3
  have hrun2 := insert_topic_hierarchy_upsert dp name
    ({ st with
       topics := st.topics ++ rootFinalRec st.nextTopicId d name ::
         catRecs (st.nextTopicId + 1) st.nextTopicId d.main_categories,
       nextTopicId := st.nextTopicId + 1 + catsSize d.main_categories,
       callCount := st.callCount + 2 + catsSize d.main_categories } : StoreState)
    st.topics (rootFinalRec st.nextTopicId d name)
    (catRecs (st.nextTopicId + 1) st.nextTopicId d.main_categories)
    rfl h1 rfl
    (fun t ht => by
      have := h3 t ht
      simp only [rootFinalRec]
      omega)
    (fun t ht => by
      have := catRecs_id_ge st.nextTopicId d.main_categories (st.nextTopicId + 1) t ht
      simp only [rootFinalRec]
      omega)
    (by simp only [rootFinalRec]; omega)
  refine ⟨_, _, hrun1, hrun2, ?_⟩
  have hA : st.topics.countP (fun t => t.parent_id.isNone) = 0 :=
    List.countP_eq_zero.mpr (fun t ht => by
      intro hh
      exact h2 t ht (Option.isNone_iff_eq_none.mp hh))
  have hB := catRecs_countP_roots st.nextTopicId d.main_categories (st.nextTopicId + 1)
  have hC := catRecs_countP_roots (rootFinalRec st.nextTopicId d name).id
    dp.main_categories
    (({ st with
       topics := st.topics ++ rootFinalRec st.nextTopicId d name ::
         catRecs (st.nextTopicId + 1) st.nextTopicId d.main_categories,
       nextTopicId := st.nextTopicId + 1 + catsSize d.main_categories,
       callCount := st.callCount + 2 + catsSize d.main_categories } : StoreState)).nextTopicId
  simp only [List.countP_append, List.countP_cons, hA, hB, hC]
  simp [rootFinalRec]

/-- Claim C4 witness: two runs over the empty store with the same root
name "A" leave exactly one root record and both return root id 0. -/
theorem claim4_idempotent_root_upsert_witness :
    ∃ st1 st2,
      insert_topic_hierarchy noFail emptyStore sampleStructure "A" =
        .ok (emptyStore.nextTopicId, st1) ∧
      insert_topic_hierarchy noFail st1 sampleStructure "A" =
        .ok (emptyStore.nextTopicId, st2) ∧
      st2.topics.countP (fun t => t.parent_id.isNone) = 1 :=
  claim4_idempotent_root_upsert sampleStructure sampleStructure "A" emptyStore
    (by simp [emptyStore]) (by simp [emptyStore]) (by simp [emptyStore])

theorem leafRecs_filter_tagged (scid : Nat) (ls : List LeafTopic) :
    ∀ i, (leafRecs i scid ls).filter
      (fun t => t.metadata.category_type == some "leaf_topic") = leafRecs i scid ls := by
  induction ls with
  | nil => intro i; simp [leafRecs]
  | cons l rest ih =>
    intro i
    rw [leafRecs, List.filter_cons]
    simp only [leafRecord, leafMetaOf]
    rw [ih]
    simp

theorem subcatRecs_filter_tagged_length (cid : Nat) (scs : List Subcategory) :
    ∀ i, ((subcatRecs i cid scs).filter
      (fun t => t.metadata.category_type == some "leaf_topic")).length =
      (scs.map (fun sc => sc.leaf_topics.length)).sum := by
  induction scs with
  | nil => intro i; simp [subcatRecs]
  | cons sc rest ih =>
    intro i
    rw [subcatRecs, List.filter_cons, List.filter_append]
    rw [leafRecs_filter_tagged]
    simp [subcatRecord, subcatMetaOf, ih, leafRecs_length]

theorem catRecs_filter_tagged_length (rid : Nat) (cs : List Category) :
    ∀ i, ((catRecs i rid cs).filter
      (fun t => t.metadata.category_type == some "leaf_topic")).length =
      totalLeaves cs := by
  induction cs with
  | nil => intro i; simp [catRecs, totalLeaves]
  | cons c rest ih =>
    intro i
    rw [catRecs, List.filter_cons, List.filter_append]
    simp [catRecord, catMetaOf, List.length_append, subcatRecs_filter_tagged_length, ih,
      totalLeaves]

/-- Claim C5 (amended): the `ENUMERATING_LEAVES` step fetches every topic
row whose metadata tags it `category_type = "leaf_topic"` across the whole
store — it is not restricted to childless topics beneath the just-created
root.  Over a store with no pre-existing leaf-tagged rows (and a fresh
root slug and well-formed ids), a run whose structure carries `n` leaf
topics reports `total_topics = n` — so 2 leaf topics give
`total_topics = 2` — and an empty enumeration is not an error: it yields a
summary with zero generated questions and no failed topics. -/
theorem claim5_leaf_enumeration (d : AnalysisData) (name : String) (st : StoreState)
    (aClient : Request → ClientReply AnalysisData)
    (qClient : Request → ClientReply (List QData)) (test_mode : Bool)
    (h1 : ∀ t ∈ st.topics, t.slug ≠ slugOf name)
    (h2 : ∀ t ∈ st.topics, t.metadata.category_type ≠ some "leaf_topic")
    (h3 : ∀ t ∈ st.topics, t.id < st.nextTopicId)
    (ha : aClient (analysisRequest name test_mode) = .ok d) :
    ∃ s st', generate_intelligent_course aClient qClient noFail st name test_mode =
        .ok (s, st') ∧
      s.total_topics = totalLeaves d.main_categories ∧
      (totalLeaves d.main_categories = 0 → s.total_questions = 0 ∧ s.failed_topics = []) := by
  have hfl : (st.topics ++ rootFinalRec st.nextTopicId d name ::
      catRecs (st.nextTopicId + 1) st.nextTopicId d.main_categories).filter
        (fun t => t.metadata.category_type == some "leaf_topic") =
      (catRecs (st.nextTopicId + 1) st.nextTopicId d.main_categories).filter
        (fun t => t.metadata.category_type == some "leaf_topic") := by
    rw [List.filter_append, List.filter_cons]
    have hstf : st.topics.filter
        (fun t => t.metadata.category_type == some "leaf_topic") = [] := by
      refine List.filter_eq_nil_iff.mpr ?_
      intro t ht
      have := h2 t ht
      simp only [beq_iff_eq]
      exact fun hh => this hh
    rw [hstf]
    simp [rootFinalRec, rootMetaOf]
  have hlen : ((st.topics ++ rootFinalRec st.nextTopicId d name ::
      catRecs (st.nextTopicId + 1) st.nextTopicId d.main_categories).filter
        (fun t => t.metadata.category_type == some "leaf_topic")).length =
      totalLeaves d.main_categories := by
    rw [hfl, catRecs_filter_tagged_length]
  rw [generate_intelligent_course]
  simp only [analyze_topic_and_generate_structure, ha,
    insert_topic_hierarchy_noFail d name st h1 h3]
  refine ⟨_, _, rfl, ?_, ?_⟩
  · exact hlen
  intro h0
  have hempty : (st.topics ++ rootFinalRec st.nextTopicId d name ::
      catRecs (st.nextTopicId + 1) st.nextTopicId d.main_categories).filter
        (fun t => t.metadata.category_type == some "leaf_topic") = [] :=
    List.length_eq_zero.mp (hlen.trans h0)
  simp [hempty, genLoop]

/-- Summary projection of a run outcome. -/
def runSummary (r : Except StoreState (Summary × StoreState)) : Option Summary :=
  match r with
  | .ok (s, _) => some s
  | .error _ => none

/-- Store pre-seeded with one leaf-tagged topic row left over from an
earlier run (it belongs to a different root). -/
def preSeededStore : StoreState :=
  { topics := [{ id := 0, name := "P", description := "p", parent_id := some 7,
                 slug := "P", metadata := { category_type := some "leaf_topic" } }],
    nextTopicId := 1 }

/-- Claim C5 counterexample: the enumeration is NOT "exactly the topics
with no children beneath the just-created root": over a store holding one
leaf-tagged row from an earlier, unrelated course, a run whose structure
contains exactly 2 leaf topics reports `total_topics = 3`, not 2 — the
query `.eq("metadata->>category_type", "leaf_topic")` picks up every
leaf-tagged row in the store regardless of the root. -/
theorem claim5_counterexample :
    totalLeaves sampleStructure.main_categories = 2 ∧
    (runSummary (generate_intelligent_course (fun _ => ClientReply.ok sampleStructure)
        (fun _ => ClientReply.badJson) noFail preSeededStore "A" true)).map
      (fun s => s.total_topics) = some 3 := by
  constructor
  · decide
  · decide

/-- Structure reply with no leaf topics at all. -/
def emptyStructure : AnalysisData :=
  { analysis := sampleAnalysis, main_categories := [] }

/-- Claim C5 witness (for the amended claim): from an empty store the
sample structure with 2 leaf topics reports `total_topics = 2`, and a
structure with no leaf topics yields an empty enumeration that is not an
error: zero questions, no failed topics. -/
theorem claim5_leaf_enumeration_witness :
    (∃ s st', generate_intelligent_course (fun _ => ClientReply.ok sampleStructure)
        (fun _ => ClientReply.badJson) noFail emptyStore "A" true = .ok (s, st') ∧
      s.total_topics = totalLeaves sampleStructure.main_categories ∧
      (totalLeaves sampleStructure.main_categories = 0 →
        s.total_questions = 0 ∧ s.failed_topics = [])) ∧
    totalLeaves sampleStructure.main_categories = 2 ∧
    (∃ s st', generate_intelligent_course (fun _ => ClientReply.ok emptyStructure)
        (fun _ => ClientReply.badJson) noFail emptyStore "B" true = .ok (s, st') ∧
      s.total_topics = totalLeaves emptyStructure.main_categories ∧
      (totalLeaves emptyStructure.main_categories = 0 →
        s.total_questions = 0 ∧ s.failed_topics = [])) ∧
    totalLeaves emptyStructure.main_categories = 0 := by
  refine ⟨?_, by decide, ?_, by decide⟩
  · exact claim5_leaf_enumeration sampleStructure "A" emptyStore _ _ true
      (by simp [emptyStore]) (by simp [emptyStore]) (by simp [emptyStore]) rfl
  · exact claim5_leaf_enumeration emptyStructure "B" emptyStore _ _ true
      (by simp [emptyStore]) (by simp [emptyStore]) (by simp [emptyStore]) rfl
